import Mathlib

/-!
Verification of `src/Modeling/modeling_functions.py` from the repository
`Detecting-attempted-credit-card-fraud-Capstone-Project-`.

The file shallowly embeds the three functions of the source file —
`removeOutliers`, `customCV` and `customGridSearchCV` — and proves the
spec claims about them.

Modelling conventions:
* pandas `DataFrame`/`Series` values are exact rationals (`ℚ`); row index
  labels are natural numbers.
* Rational arithmetic inside the embedding is written with the
  kernel-computable wrappers `qadd`, `qsub`, `qmul`, `qdiv`, `qsum`
  (built on `Rat.divInt`, which the kernel can evaluate, unlike the
  `@[irreducible]` field operations of `Rat`).  The lemmas
  `qadd_eq_add` … `qsum_eq_sum` below prove that each wrapper is
  extensionally the ordinary field operation on `ℚ`, so every definition
  can be read with the usual arithmetic meaning.
* Python string comparison (used by `sorted`) is modelled by `pyStrLe`,
  lexicographic comparison of Unicode code points, which is exactly
  CPython's semantics for `str` ordering.
* External sklearn/imblearn collaborators (scaler, resampler, PCA,
  classifier, `classification_report`, `StratifiedKFold` splits) are
  opaque function parameters, mirroring the capability contracts they
  satisfy in the source.
-/

namespace CCFraud

/-- Kernel-computable addition on `ℚ` (equals `a + b`, see `qadd_eq_add`). -/
def qadd (a b : ℚ) : ℚ := Rat.divInt (a.num * b.den + b.num * a.den) (a.den * b.den)

/-- Kernel-computable subtraction on `ℚ` (equals `a - b`, see `qsub_eq_sub`). -/
def qsub (a b : ℚ) : ℚ := Rat.divInt (a.num * b.den - b.num * a.den) (a.den * b.den)

/-- Kernel-computable multiplication on `ℚ` (equals `a * b`, see `qmul_eq_mul`). -/
def qmul (a b : ℚ) : ℚ := Rat.divInt (a.num * b.num) (a.den * b.den)

/-- Kernel-computable division on `ℚ` (equals `a / b`, see `qdiv_eq_div`). -/
def qdiv (a b : ℚ) : ℚ := Rat.divInt (a.num * b.den) (a.den * b.num)

/-- Kernel-computable list sum on `ℚ` (equals `List.sum`, see `qsum_eq_sum`). -/
def qsum : List ℚ → ℚ
  | [] => 0
  | x :: xs => qadd x (qsum xs)

/-- Lexicographic comparison of character lists by Unicode code point. -/
def charListLe : List Char → List Char → Bool
  | [], _ => true
  | _ :: _, [] => false
  | a :: as, b :: bs =>
    if a.val < b.val then true
    else if b.val < a.val then false
    else charListLe as bs

/-- CPython's `str` ordering: lexicographic on Unicode code points.  Used to
model the behavior of Python's `sorted` on the string keys appearing in
`customGridSearchCV`. -/
def pyStrLe (a b : String) : Bool := charListLe a.data b.data

/-- A pandas `DataFrame` with numeric entries: a row index (labels) plus
named columns, stored column-major.  A well-formed frame is rectangular:
every column has exactly `index.length` entries (pandas guarantees this by
construction). -/
structure DataFrame where
  index : List Nat
  cols : List (String × List ℚ)
deriving DecidableEq

/-- A pandas `Series`: a row index plus one value per row. -/
structure Series where
  index : List Nat
  vals : List ℚ
deriving DecidableEq

/-- Model of `column.mean()`: the arithmetic mean of the column values. -/
def listMean (xs : List ℚ) : ℚ := qdiv (qsum xs) (xs.length : ℚ)

/-- Model of `column.std()` squared: the sample variance with `ddof = 1`,
`Σ (v - mean)² / (n - 1)`, which is pandas' default.  For `n ≤ 1` the
division by zero yields `0` here, while pandas yields `NaN` — and a `NaN`
standard deviation makes both outlier comparisons in the source evaluate to
`False`, which coincides with what the predicate below does with variance
`0` on a one-element column (the single value equals the mean). -/
def listSampVar (xs : List ℚ) : ℚ :=
  qdiv (qsum (xs.map (fun v => qmul (qsub v (listMean xs)) (qsub v (listMean xs)))))
    (qsub (xs.length : ℚ) 1)

/-- The outlier test of line 31 of the source,
`(v < mean - 4*std) | (v > mean + 4*std)`, expressed on the variance
(`std²`) so that it stays inside `ℚ`:  for `0 ≤ s2` and `std = √s2` the
two are equivalent (lemma `isOutlierVal_iff_real` below). -/
def isOutlierVal (v m s2 : ℚ) : Bool := decide (qmul 16 s2 < qmul (qsub v m) (qsub v m))

/-- Model of `new_X_train[(new_X_train[col] < mean_ - 4*std_) |
(new_X_train[col] > mean_ + 4*std_)].index`: the labels of the rows whose
value in the given column is an outlier. -/
def outlierLabels (index : List Nat) (vals : List ℚ) : List Nat :=
  (index.zip vals).filterMap
    (fun p => if isOutlierVal p.2 (listMean vals) (listSampVar vals) then some p.1 else none)

/-- The accumulation loop of lines 23–36 of the source.  For each column the
code appends that column's outlier labels to `col_indices` (`ci`) and then
re-appends the flattening of the whole of `col_indices` to `indices`
(`ind`) — so earlier columns' labels are appended repeatedly. -/
def buildIndicesAux (index : List Nat) :
    List (String × List ℚ) → List (List Nat) → List Nat → List Nat
  | [], _, ind => ind
  | c :: rest, ci, ind =>
    buildIndicesAux index rest (ci ++ [outlierLabels index c.2])
      (ind ++ (ci ++ [outlierLabels index c.2]).flatten)

/-- The full `indices` list built by the loop, before deduplication. -/
def buildIndices (X : DataFrame) : List Nat := buildIndicesAux X.index X.cols [] []

/-- Line 39 of the source, `indices = list(set(indices))`:  only the
membership of the resulting collection matters downstream (it is used as a
set of labels to drop), so `set` is modelled by `dedup`. -/
def dropIndices (X : DataFrame) : List Nat := (buildIndices X).dedup

/-- Model of `DataFrame.drop(labels, axis=0)`: remove every row whose index
label occurs in `L`; returns a new frame. -/
def DataFrame.dropLabels (X : DataFrame) (L : List Nat) : DataFrame :=
  ⟨X.index.filter (fun l => decide (l ∉ L)),
   X.cols.map (fun c =>
     (c.1, (X.index.zip c.2).filterMap (fun p => if p.1 ∈ L then none else some p.2)))⟩

/-- Model of `Series.drop(labels, axis=0)`. -/
def Series.dropLabels (y : Series) (L : List Nat) : Series :=
  ⟨y.index.filter (fun l => decide (l ∉ L)),
   (y.index.zip y.vals).filterMap (fun p => if p.1 ∈ L then none else some p.2)⟩

/-- Embedding of `removeOutliers` (lines 1–51 of the source): copy the
inputs, flag per column the rows lying more than four standard deviations
from the column mean, union the flagged labels, and drop them from both the
features and the labels. -/
def removeOutliers (X : DataFrame) (y : Series) : DataFrame × Series :=
  (X.dropLabels (dropIndices X), y.dropLabels (dropIndices X))

/-- The guard of the diagnostic branch at lines 46–49 of the source: the
error banner is printed exactly when the post-drop lengths differ. -/
def removeOutliersBanner (X : DataFrame) (y : Series) : Bool :=
  decide ((removeOutliers X y).1.index.length ≠ (removeOutliers X y).2.index.length)

/-- The drop set described by the spec's words: the plain union (one pass)
of the per-column outlier label lists.  Used as the reference point of the
refinement claim about the duplicated accumulation loop. -/
def specUnionIndices (X : DataFrame) : List Nat :=
  (X.cols.map (fun c => outlierLabels X.index c.2)).flatten

/-- Decidable per-position outlier test: row position `p` of column `c` is
an outlier for that column (with column statistics computed over the whole
column, i.e. pre-drop). -/
def isOutlierAt (c : String × List ℚ) (p : Nat) : Bool :=
  decide (p < c.2.length) && isOutlierVal (c.2.getD p 0) (listMean c.2) (listSampVar c.2)

/-- A pandas object living in the heap: a frame or a series. -/
inductive PdObj where
  | df : DataFrame → PdObj
  | series : Series → PdObj
deriving DecidableEq

/-- An explicit heap of pandas objects, for stating the frame condition of
`removeOutliers` (the Python function receives references to the caller's
objects). -/
abbrev Store : Type := List (Nat × PdObj)

/-- An identifier never used by the store. -/
def freshId (σ : Store) : Nat := (σ.map Prod.fst).foldr max 0 + 1

/-- Allocate a new object in the store, returning its fresh identifier. -/
def allocObj (σ : Store) (o : PdObj) : Store × Nat :=
  (σ ++ [(freshId σ, o)], freshId σ)

/-- State-level embedding of `removeOutliers`: the arguments are references
into the store.  `X_train.copy()` / `y_train.copy()` (lines 15–16) allocate
fresh objects; `.drop(indices, axis=0)` (lines 42–43) is called with its
default `inplace=False`, so it also returns fresh objects and the
assignments only rebind the local names.  No operation writes through an
existing identifier. -/
def removeOutliersProg (σ : Store) (xid yid : Nat) : Store × Nat × Nat :=
  match σ.lookup xid, σ.lookup yid with
  | some (.df X), some (.series y) =>
    let c1 := allocObj σ (.df X)
    let c2 := allocObj c1.1 (.series y)
    let r := removeOutliers X y
    let d1 := allocObj c2.1 (.df r.1)
    let d2 := allocObj d1.1 (.series r.2)
    (d2.1, d1.2, d2.2)
  | _, _ => (σ, xid, yid)

/-- Positional row selection, `X.iloc[positions]` for a frame. -/
def ilocDF (X : DataFrame) (pos : List Nat) : DataFrame :=
  ⟨pos.map (fun i => X.index.getD i 0),
   X.cols.map (fun c => (c.1, pos.map (fun i => c.2.getD i 0)))⟩

/-- Positional row selection, `y.iloc[positions]` for a series. -/
def ilocS (y : Series) (pos : List Nat) : Series :=
  ⟨pos.map (fun i => y.index.getD i 0), pos.map (fun i => y.vals.getD i 0)⟩

/-- The full row of a frame at position `i`: its index label and its value
in every column, in column order. -/
def rowAt (X : DataFrame) (i : Nat) : Nat × List ℚ :=
  (X.index.getD i 0, X.cols.map (fun c => c.2.getD i 0))

/-- Model of `pd.DataFrame(array, columns=names)` (lines 100 and 105 of the
source): wrap a row-major numeric array into a frame with a fresh
`RangeIndex`. -/
def mkDF (names : List String) (arr : List (List ℚ)) : DataFrame :=
  ⟨List.range arr.length, names.zip arr.transpose⟩

/-- Model of `pd.Series(values, name='Class')` (line 106): wrap values with
a fresh `RangeIndex`. -/
def mkSeries (vs : List ℚ) : Series := ⟨List.range vs.length, vs⟩

/-- A (recall, precision, f1) score triple for the positive class, the
entries of the per-fold score list and of `customCV`'s result. -/
structure Score where
  recallScore : ℚ
  precisionScore : ℚ
  f1Score : ℚ
deriving DecidableEq

/-- The opaque external collaborators of `customCV`: the scaler (stateful
`fit` producing parameters `SP`, then `transform` with those parameters,
returning a numpy array), the resampler's `fit_resample`, the optional PCA
reducer, the classifier class (`fit` returning a fitted model `M` that can
`predict`), and `classification_report` restricted to the positive-class
row (recall, precision, f1). -/
structure CVParts (SP PP M : Type) where
  sFit : DataFrame → SP
  sTransform : SP → DataFrame → List (List ℚ)
  fitResample : DataFrame → Series → List (List ℚ) × List ℚ
  pca : Option ((DataFrame → PP) × (PP → DataFrame → DataFrame))
  clfFit : DataFrame → Series → M
  clfPredict : M → DataFrame → List ℚ
  report : Series → List ℚ → Score

/-- What one fold of `customCV` produces: the fitted scaler parameters, the
scaled training features (before resampling), and the fold's score. -/
structure FoldOut (SP : Type) where
  scalerParams : SP
  XtrainScaled : List (List ℚ)
  score : Score

/-- The body of the `for train_index, test_index in skf.split(X, y)` loop
of `customCV` (lines 93–133 of the source): split positionally, fit the
scaler on the training fold only and transform both folds with it, rewrap,
resample the scaled training fold, optionally remove outliers, optionally
apply PCA, fit the classifier and score its test-fold predictions. -/
def foldEval {SP PP M : Type} (P : CVParts SP PP M) (outlier_removal : Bool)
    (X : DataFrame) (y : Series) (train_index test_index : List Nat) : FoldOut SP :=
  let X_train := ilocDF X train_index
  let X_test := ilocDF X test_index
  let y_train := ilocS y train_index
  let y_test := ilocS y test_index
  let sp := P.sFit X_train
  let X_train_s_arr := P.sTransform sp X_train
  let X_test_s_arr := P.sTransform sp X_test
  let names := X.cols.map Prod.fst
  let X_train_s := mkDF names X_train_s_arr
  let X_test_s := mkDF names X_test_s_arr
  let rr := P.fitResample X_train_s y_train
  let X_train_s_r := mkDF names rr.1
  let y_train_r := mkSeries rr.2
  let o := if outlier_removal then removeOutliers X_train_s_r y_train_r
    else (X_train_s_r, y_train_r)
  let fin := match P.pca with
    | some pc => (pc.2 (pc.1 o.1) o.1, pc.2 (pc.1 o.1) X_test_s)
    | none => (o.1, X_test_s)
  let fit_clf := P.clfFit fin.1 o.2
  let y_pred := P.clfPredict fit_clf fin.2
  ⟨sp, X_train_s_arr, P.report y_test y_pred⟩

/-- Embedding of `customCV`: the stratified splits produced by
`StratifiedKFold` are an external input; each fold is evaluated by
`foldEval` and the three metrics are averaged over the folds (lines
144–155).  Returns `[mean recall, mean precision, mean f1]`. -/
def customCV {SP PP M : Type} (P : CVParts SP PP M) (outlier_removal : Bool)
    (splits : List (List Nat × List Nat)) (X : DataFrame) (y : Series) : List ℚ :=
  let scores := splits.map (fun t => (foldEval P outlier_removal X y t.1 t.2).score)
  [listMean (scores.map Score.recallScore), listMean (scores.map Score.precisionScore),
   listMean (scores.map Score.f1Score)]

/-- A parameter combination, as recorded in `current_params`: one (name,
value) pair per hyperparameter, in sorted name order (the insertion order
of the dict in the source).  A value is represented by its Python string
form, which is all the source ever uses of it apart from passing it to the
opaque classifier constructor. -/
abbrev Combo : Type := List (String × String)

/-- The string key `str(current_params)` under which the source stores each
combination's scores: `"{'name': value, …}"`.  Two combinations over the
same name sequence collide exactly when all their value strings agree,
which is how `Combo` equality itself behaves; this rendering is used for
the sort order of `sorted(scores.keys())`. -/
def comboStrParts : Combo → String
  | [] => ""
  | [p] => "\x27" ++ p.1 ++ "\x27: " ++ p.2
  | p :: q :: rest => "\x27" ++ p.1 ++ "\x27: " ++ p.2 ++ ", " ++ comboStrParts (q :: rest)

/-- The rendered dict key, `str(current_params)`. -/
def comboStr (c : Combo) : String := "\x7b" ++ comboStrParts c ++ "\x7d"

/-- Model of `sorted(param_grid.keys())` (line 187 of the source): the
hyperparameter names in Python string order.  (`insertionSort` by a total
order produces the same sorted list as CPython's sort.) -/
def sortedKeys (pg : List (String × List String)) : List String :=
  List.insertionSort (fun a b => pyStrLe a b = true) (pg.map Prod.fst)

/-- Model of `param_grid[k]`: the candidate values of hyperparameter `k`
(the grid is a Python dict, so names are unique; `lookup` takes the first
entry). -/
def gridVals (pg : List (String × List String)) (k : String) : List String :=
  ((pg.find? (fun e => e.1 == k)).map Prod.snd).getD []

/-- The fixed-depth nested enumeration of lines 209–237 of the source: one
nested loop level per parameter name, evaluating a combination at depth
`len_`.  With no names the source raises `IndexError` on
`param_keys[0]` (handled by the caller below); with more than five names
the innermost loop body never runs, so nothing is enumerated. -/
def gridCombos (vals : String → List String) : List String → List Combo
  | [k1] => (vals k1).map (fun v1 => [(k1, v1)])
  | [k1, k2] =>
    (vals k1).flatMap (fun v1 => (vals k2).map (fun v2 => [(k1, v1), (k2, v2)]))
  | [k1, k2, k3] =>
    (vals k1).flatMap (fun v1 => (vals k2).flatMap (fun v2 =>
      (vals k3).map (fun v3 => [(k1, v1), (k2, v2), (k3, v3)])))
  | [k1, k2, k3, k4] =>
    (vals k1).flatMap (fun v1 => (vals k2).flatMap (fun v2 =>
      (vals k3).flatMap (fun v3 => (vals k4).map (fun v4 =>
        [(k1, v1), (k2, v2), (k3, v3), (k4, v4)]))))
  | [k1, k2, k3, k4, k5] =>
    (vals k1).flatMap (fun v1 => (vals k2).flatMap (fun v2 =>
      (vals k3).flatMap (fun v3 => (vals k4).flatMap (fun v4 =>
        (vals k5).map (fun v5 => [(k1, v1), (k2, v2), (k3, v3), (k4, v4), (k5, v5)])))))
  | _ => []

/-- The generic Cartesian product over an arbitrary-length name list; the
fixed-depth enumeration above coincides with it for one to five names
(lemma `gridCombos_eq_mkCombos`). -/
def mkCombos (vals : String → List String) : List String → List Combo
  | [] => [[]]
  | k :: ks => (vals k).flatMap (fun v => (mkCombos vals ks).map (fun rest => (k, v) :: rest))

/-- Python dict assignment `d[k] = v`: update in place if the key exists,
otherwise append at the end (dicts preserve insertion order). -/
def dictUpsert (d : List (Combo × Score)) (k : Combo) (v : Score) : List (Combo × Score) :=
  if d.any (fun p => p.1 == k) then d.map (fun p => if p.1 = k then (k, v) else p)
  else d ++ [(k, v)]

/-- First value stored under a key of an association list. -/
def dictFind (d : List (Combo × Score)) (k : Combo) : Score :=
  match d.find? (fun p => p.1 == k) with
  | some p => p.2
  | none => ⟨0, 0, 0⟩

/-- The `scores` dict built by the enumeration: for every enumerated
combination (in enumeration order) the source calls
`clf(**current_params)`, runs `customCV`, and stores the score triple under
`str(current_params)`.  The score of a combination is abstracted as an
opaque function `cv` of the combination, since classifier, data and
transformers are fixed during one grid search. -/
def gridScores (pg : List (String × List String)) (cv : Combo → Score) :
    List (Combo × Score) :=
  (gridCombos (gridVals pg) (sortedKeys pg)).foldl (fun d c => dictUpsert d c (cv c)) []

/-- Python's `max` over a nonempty list of rationals. -/
def listMaxQ : List ℚ → Option ℚ
  | [] => none
  | x :: xs => some (xs.foldl (fun a b => if a < b then b else a) x)

/-- A Python exception raised while the interpreter runs the function. -/
inductive PyErr where
  | nameError : String → PyErr
  | valueError : String → PyErr
  | indexError : String → PyErr
deriving DecidableEq

/-- The value a call of `customGridSearchCV` returns when no exception is
raised: the full score mapping (the `"all"` and `"custom"` branches), or
nothing at all (`return None`, when no branch fires or the `"all"` branch
sees an empty dict and control falls off the end).  The per-metric branches
would return a 6-tuple `(key, score, scaler_str, resampler,
outlier_removal, pca)`, but they can never reach their `return`: the
`print` preceding it reads the undefined name `scaler_str` first. -/
inductive GSResult where
  | mapping : List (Combo × Score) → GSResult
  | pyNone : GSResult
deriving DecidableEq

/-- The keys of the score dict in Python sorted order,
`sorted(scores.keys())`. -/
def sortedScoreKeys (d : List (Combo × Score)) : List Combo :=
  List.insertionSort (fun a b => pyStrLe (comboStr a) (comboStr b) = true) (d.map Prod.fst)

/-- Embedding of `customGridSearchCV` (lines 159–268 of the source).  The
result is either a raised exception or a pair of the printed score entries
(in print order) and the returned value.

Branch by `scoring`:
* `"all"` (lines 241–244): the `return scores` sits inside the print loop,
  so only the first sorted key is printed before the full mapping is
  returned; with an empty dict the loop body never runs and control falls
  past every branch to an implicit `return None`.
* `"custom"` (lines 245–249): print every sorted key whose mean recall
  exceeds `0.5` and mean precision exceeds `0.2` (`mkRat 1 2` and
  `mkRat 1 5`), then return the full mapping.
* `"recall"` / `"f1"` (lines 250–255, 262–267): `max` of the metric raises
  `ValueError` on an empty dict; otherwise the first key attaining the
  maximum is found and the `print(scaler_str, …)` raises `NameError`
  because `scaler_str` is bound nowhere in the function.
* `"precision"` (lines 256–261): line 257 reads `max_score == max(...)` —
  a comparison, not an assignment — so evaluating its left operand raises
  `NameError` for the unbound `max_score` before anything else happens.
* any other string: no branch fires, `return None`. -/
def customGridSearchCV (pg : List (String × List String)) (cv : Combo → Score)
    (scoring : String) : Except PyErr (List (Combo × Score) × GSResult) :=
  if (pg.map Prod.fst).length = 0 then
    .error (.indexError "param_keys[0]")
  else
    let scores := gridScores pg cv
    if scoring = "all" then
      match sortedScoreKeys scores with
      | [] => .ok ([], .pyNone)
      | k :: _ => .ok ([(k, dictFind scores k)], .mapping scores)
    else if scoring = "custom" then
      .ok ((sortedScoreKeys scores).filterMap (fun k =>
        if mkRat 1 2 < (dictFind scores k).recallScore ∧
            mkRat 1 5 < (dictFind scores k).precisionScore
        then some (k, dictFind scores k) else none), .mapping scores)
    else if scoring = "recall" then
      (listMaxQ (scores.map (fun p => p.2.recallScore))).elim
        (.error (.valueError "max() arg is an empty sequence"))
        (fun m => ((scores.find? (fun p => p.2.recallScore == m)).elim
          (.ok ([], .pyNone))
          (fun _ => .error (.nameError "scaler_str"))))
    else if scoring = "precision" then
      .error (.nameError "max_score")
    else if scoring = "f1" then
      (listMaxQ (scores.map (fun p => p.2.f1Score))).elim
        (.error (.valueError "max() arg is an empty sequence"))
        (fun m => ((scores.find? (fun p => p.2.f1Score == m)).elim
          (.ok ([], .pyNone))
          (fun _ => .error (.nameError "scaler_str"))))
    else
      .ok ([], .pyNone)

/-- Concrete one-parameter grid `{'a': [1, 2]}` (values by their string
forms), used in the closed evaluation theorems. -/
def pgEx : List (String × List String) := [("a", ["1", "2"])]

/-- A concrete score assignment for the combinations of `pgEx`. -/
def cvEx : Combo → Score := fun c =>
  if c = [("a", "1")] then ⟨1, mkRat 3 4, mkRat 1 2⟩ else ⟨mkRat 1 4, 1, mkRat 1 3⟩

/-- Concrete two-parameter grid `{'b': ['x','y','z'], 'a': [1, 2]}`. -/
def pgEx2 : List (String × List String) := [("b", ["x", "y", "z"]), ("a", ["1", "2"])]

/-- A small two-row frame with distinct labels, for witnesses. -/
def Xw : DataFrame := ⟨[0, 1], [("a", [1, 2])]⟩

/-- A label series aligned with `Xw`. -/
def yw : Series := ⟨[0, 1], [5, 6]⟩

/-- A frame that agrees with `Xw` on row position 0 and differs at row
position 1 (used as the test-fold perturbation in the leakage witness). -/
def X2w : DataFrame := ⟨[0, 1], [("a", [1, 99])]⟩

/-- An 18-row frame whose index label 7 occurs twice: once on the single
outlier row (value 18: the column has mean 1 and sample variance 18, and
17² = 289 > 16·18 = 288) and once on a perfectly ordinary row.  Dropping
by label therefore removes two rows although only one is an outlier. -/
def Xce : DataFrame :=
  ⟨[7, 7, 10, 11, 12, 13, 14, 15, 16, 17, 18, 19, 20, 21, 22, 23, 24, 25],
   [("a", [18, 0, 0, 0, 0, 0, 0, 0, 0, 0, 0, 0, 0, 0, 0, 0, 0, 0])]⟩

/-- A label series aligned with `Xce`. -/
def yce : Series :=
  ⟨[7, 7, 10, 11, 12, 13, 14, 15, 16, 17, 18, 19, 20, 21, 22, 23, 24, 25],
   [0, 0, 0, 0, 0, 0, 0, 0, 0, 0, 0, 0, 0, 0, 0, 0, 0, 0]⟩

/-- A concrete instantiation of the external collaborators of `customCV`
(a scaler that records the column values as its fitted parameters, an
identity-ish resampler, no PCA, a trivial classifier and report), used by
the leakage witness. -/
def cvPartsEx : CVParts (List (List ℚ)) Unit Unit where
  sFit := fun d => d.cols.map Prod.snd
  sTransform := fun sp _ => sp
  fitResample := fun d s => (d.cols.map Prod.snd, s.vals)
  pca := none
  clfFit := fun _ _ => ()
  clfPredict := fun _ _ => []
  report := fun _ _ => ⟨0, 0, 0⟩

/-- A concrete two-object store holding `Xw` and `yw`. -/
def storeEx : Store := [(1, .df Xw), (2, .series yw)]

/-! ### Bridging lemmas: the kernel-computable arithmetic is the field
arithmetic of `ℚ`, and the squared outlier test is the source's
`mean ± 4·std` test. -/

theorem qadd_eq_add (a b : ℚ) : qadd a b = a + b := by
  have ha : (a.den : ℚ) ≠ 0 := Nat.cast_ne_zero.mpr a.den_nz
  have hb : (b.den : ℚ) ≠ 0 := Nat.cast_ne_zero.mpr b.den_nz
  rw [qadd, Rat.divInt_eq_div]
  conv_rhs => rw [← Rat.num_div_den a, ← Rat.num_div_den b]
  push_cast
  field_simp
  try exact mul_comm _ _

theorem qsub_eq_sub (a b : ℚ) : qsub a b = a - b := by
  have ha : (a.den : ℚ) ≠ 0 := Nat.cast_ne_zero.mpr a.den_nz
  have hb : (b.den : ℚ) ≠ 0 := Nat.cast_ne_zero.mpr b.den_nz
  rw [qsub, Rat.divInt_eq_div]
  conv_rhs => rw [← Rat.num_div_den a, ← Rat.num_div_den b]
  push_cast
  field_simp
  try exact mul_comm _ _

theorem qmul_eq_mul (a b : ℚ) : qmul a b = a * b := by
  have ha : (a.den : ℚ) ≠ 0 := Nat.cast_ne_zero.mpr a.den_nz
  have hb : (b.den : ℚ) ≠ 0 := Nat.cast_ne_zero.mpr b.den_nz
  rw [qmul, Rat.divInt_eq_div]
  conv_rhs => rw [← Rat.num_div_den a, ← Rat.num_div_den b]
  push_cast
  field_simp
  try exact mul_comm _ _

theorem qdiv_eq_div (a b : ℚ) : qdiv a b = a / b := by
  have ha : (a.den : ℚ) ≠ 0 := Nat.cast_ne_zero.mpr a.den_nz
  have hb : (b.den : ℚ) ≠ 0 := Nat.cast_ne_zero.mpr b.den_nz
  rcases eq_or_ne b 0 with rb | rb
  · subst rb
    simp [qdiv, Rat.divInt_eq_div]
  · have hbn : (b.num : ℚ) ≠ 0 := by
      simpa using Rat.num_ne_zero.mpr rb
    rw [qdiv, Rat.divInt_eq_div]
    conv_rhs => rw [← Rat.num_div_den a, ← Rat.num_div_den b]
    rw [div_div_div_comm]
    push_cast
    field_simp
    try exact mul_comm _ _
    try exact Or.inl (mul_comm _ _)

theorem qsum_eq_sum (l : List ℚ) : qsum l = l.sum := by
  induction l with
  | nil => simp [qsum]
  | cons x xs ih => simp [qsum, qadd_eq_add, ih]

theorem listMean_eq (xs : List ℚ) : listMean xs = xs.sum / (xs.length : ℚ) := by
  rw [listMean, qdiv_eq_div, qsum_eq_sum]

theorem listSampVar_eq (xs : List ℚ) :
    listSampVar xs = (xs.map (fun v => (v - listMean xs) ^ 2)).sum / ((xs.length : ℚ) - 1) := by
  rw [listSampVar, qdiv_eq_div, qsum_eq_sum, qsub_eq_sub]
  congr 1
  simp only [qmul_eq_mul, qsub_eq_sub, sq]

/-- The squared test used by `isOutlierVal` is exactly the source's
condition `(v < mean - 4*std) | (v > mean + 4*std)` read over the reals
with `std = √variance`. -/
theorem isOutlierVal_iff_real (v m s2 : ℚ) (h : 0 ≤ s2) :
    isOutlierVal v m s2 = true ↔
      ((v : ℝ) < (m : ℝ) - 4 * Real.sqrt (s2 : ℝ) ∨
        (m : ℝ) + 4 * Real.sqrt (s2 : ℝ) < (v : ℝ)) := by
  rw [isOutlierVal, decide_eq_true_iff, qmul_eq_mul, qmul_eq_mul, qsub_eq_sub]
  have hs : (0 : ℝ) ≤ (s2 : ℝ) := by exact_mod_cast h
  have hq : ((16 * s2 : ℚ) : ℝ) < (((v - m) * (v - m) : ℚ) : ℝ) ↔
      (16 * s2 : ℚ) < (v - m) * (v - m) := Rat.cast_lt
  rw [← hq]
  push_cast
  have hsq : (4 * Real.sqrt (s2 : ℝ)) ^ 2 = 16 * (s2 : ℝ) := by
    rw [mul_pow, Real.sq_sqrt hs]
    norm_num
  have hnn : (0 : ℝ) ≤ 4 * Real.sqrt (s2 : ℝ) := by positivity
  constructor
  · intro hlt
    have h2 : (4 * Real.sqrt (s2 : ℝ)) ^ 2 < ((v : ℝ) - (m : ℝ)) ^ 2 := by
      rw [hsq]; nlinarith [hlt]
    have h3 := sq_lt_sq.mp h2
    rw [abs_of_nonneg hnn] at h3
    rcases lt_abs.mp h3 with h4 | h4
    · right; linarith
    · left; linarith
  · intro hlt
    have h3 : 4 * Real.sqrt (s2 : ℝ) < |(v : ℝ) - (m : ℝ)| := by
      rcases hlt with h4 | h4
      · exact lt_abs.mpr (Or.inr (by linarith))
      · exact lt_abs.mpr (Or.inl (by linarith))
    have h2 : (4 * Real.sqrt (s2 : ℝ)) ^ 2 < ((v : ℝ) - (m : ℝ)) ^ 2 :=
      sq_lt_sq.mpr (by rwa [abs_of_nonneg hnn])
    rw [hsq] at h2
    nlinarith [h2, sq_abs ((v : ℝ) - (m : ℝ))]

/-- The sample variance is never negative, so the bridging lemma above
applies to every column. -/
theorem listSampVar_nonneg (xs : List ℚ) : 0 ≤ listSampVar xs := by
  cases xs with
  | nil => decide
  | cons x rest =>
    rw [listSampVar_eq]
    apply div_nonneg
    · apply List.sum_nonneg
      intro q hq
      rcases List.mem_map.mp hq with ⟨v, _, rfl⟩
      positivity
    · have : (1 : ℚ) ≤ ((x :: rest).length : ℚ) := by
        exact_mod_cast Nat.succ_le_succ (Nat.zero_le rest.length)
      linarith

/-- The literal thresholds of the `"custom"` branch are `0.5` and `0.2`. -/
theorem custom_thresholds : (mkRat 1 2 : ℚ) = 1 / 2 ∧ (mkRat 1 5 : ℚ) = 1 / 5 := by
  rw [Rat.mkRat_eq_div, Rat.mkRat_eq_div]
  norm_num

/-! ### The outlier filter: the duplicated accumulation loop, alignment,
and the drop-set characterization. -/

/-- Invariant of the accumulation loop: a label is collected exactly when
it was already collected, or at least one column has been processed and the
label sits in the running `col_indices` or in a still-to-come column's
outlier labels. -/
theorem mem_buildIndicesAux (index : List Nat) (l : Nat) :
    ∀ (cs : List (String × List ℚ)) (ci : List (List Nat)) (ind : List Nat),
      l ∈ buildIndicesAux index cs ci ind ↔
        l ∈ ind ∨ (cs ≠ [] ∧ (l ∈ ci.flatten ∨ ∃ c ∈ cs, l ∈ outlierLabels index c.2)) := by
  intro cs
  induction cs with
  | nil =>
    intro ci ind
    simp [buildIndicesAux]
  | cons c rest ih =>
    intro ci ind
    rw [buildIndicesAux, ih]
    constructor
    · intro h
      rcases h with h | ⟨-, h | h⟩
      · rcases List.mem_append.mp h with h | h
        · exact Or.inl h
        · rw [List.flatten_append] at h
          rcases List.mem_append.mp h with h | h
          · exact Or.inr ⟨List.cons_ne_nil _ _, Or.inl h⟩
          · exact Or.inr ⟨List.cons_ne_nil _ _,
              Or.inr ⟨c, List.mem_cons_self _ _, by simpa using h⟩⟩
      · rw [List.flatten_append] at h
        rcases List.mem_append.mp h with h | h
        · exact Or.inr ⟨List.cons_ne_nil _ _, Or.inl h⟩
        · exact Or.inr ⟨List.cons_ne_nil _ _,
            Or.inr ⟨c, List.mem_cons_self _ _, by simpa using h⟩⟩
      · rcases h with ⟨c9, hc9, hP⟩
        exact Or.inr ⟨List.cons_ne_nil _ _, Or.inr ⟨c9, List.mem_cons_of_mem _ hc9, hP⟩⟩
    · intro h
      rcases h with h | ⟨-, h | h⟩
      · exact Or.inl (List.mem_append_left _ h)
      · refine Or.inl (List.mem_append_right _ ?_)
        rw [List.flatten_append]
        exact List.mem_append_left _ h
      · rcases h with ⟨c9, hc9, hP⟩
        rcases List.mem_cons.mp hc9 with rfl | hc9
        · refine Or.inl (List.mem_append_right _ ?_)
          rw [List.flatten_append]
          exact List.mem_append_right _ (by simpa using hP)
        · exact Or.inr ⟨List.ne_nil_of_mem hc9, Or.inr ⟨c9, hc9, hP⟩⟩

/-- The `indices` list collects exactly the labels flagged by at least one
column. -/
theorem mem_buildIndices (X : DataFrame) (l : Nat) :
    l ∈ buildIndices X ↔ ∃ c ∈ X.cols, l ∈ outlierLabels X.index c.2 := by
  rw [buildIndices, mem_buildIndicesAux]
  constructor
  · intro h
    rcases h with h | ⟨-, h | h⟩
    · exact absurd h (List.not_mem_nil _)
    · simp at h
    · exact h
  · intro h
    rcases h with ⟨c, hc, hl⟩
    exact Or.inr ⟨List.ne_nil_of_mem hc, Or.inr ⟨c, hc, hl⟩⟩

/-- Claim C10: after `set`-deduplication, the drop set computed by the
duplicated accumulation loop has exactly the members of the plain union of
the per-column outlier label lists. -/
theorem dropIndices_eq_specUnion (X : DataFrame) (l : Nat) :
    l ∈ dropIndices X ↔ l ∈ specUnionIndices X := by
  rw [dropIndices, List.mem_dedup, mem_buildIndices, specUnionIndices, List.mem_flatten]
  simp only [List.mem_map, Prod.exists]
  constructor
  · rintro ⟨a, b, hab, hl⟩
    exact ⟨_, ⟨a, b, hab, rfl⟩, hl⟩
  · rintro ⟨l1, ⟨a, b, hab, rfl⟩, hl⟩
    exact ⟨a, b, hab, hl⟩

/-- Claim C6: when features and labels share the same row index, the two
outputs of `removeOutliers` have the same length and the error banner of
lines 46–49 is not printed. -/
theorem removeOutliers_alignment (X : DataFrame) (y : Series) (h : X.index = y.index) :
    (removeOutliers X y).1.index.length = (removeOutliers X y).2.index.length ∧
      removeOutliersBanner X y = false := by
  have hl : (removeOutliers X y).1.index.length = (removeOutliers X y).2.index.length := by
    simp [removeOutliers, DataFrame.dropLabels, Series.dropLabels, h]
  exact ⟨hl, by simp [removeOutliersBanner, hl]⟩

/-- Witness for C6 at the concrete aligned pair `Xw`, `yw`. -/
theorem removeOutliers_alignment_witness :
    Xw.index = yw.index ∧
      ((removeOutliers Xw yw).1.index.length = (removeOutliers Xw yw).2.index.length ∧
        removeOutliersBanner Xw yw = false) :=
  ⟨by decide, removeOutliers_alignment Xw yw (by decide)⟩

/-- A label of a frame with duplicate-free index is flagged by a column
exactly when the row at its position is an outlier for that column. -/
theorem getElem_mem_outlierLabels_iff (X : DataFrame) (c : String × List ℚ)
    (hnd : X.index.Nodup) (hlen : c.2.length = X.index.length)
    (p : Nat) (hp : p < X.index.length) :
    X.index[p] ∈ outlierLabels X.index c.2 ↔ isOutlierAt c p = true := by
  rw [outlierLabels, List.mem_filterMap]
  constructor
  · rintro ⟨pair, hmem, hsome⟩
    rcases List.mem_iff_getElem.mp hmem with ⟨q, hq, hget⟩
    have hq2 : q < X.index.length := lt_of_lt_of_le hq (by simp [List.length_zip])
    have hqv : q < c.2.length := lt_of_lt_of_le hq (by simp [List.length_zip, hlen])
    have hpair : pair = (X.index[q], c.2[q]) := by
      rw [← hget, List.getElem_zip]
    subst hpair
    by_cases hout : isOutlierVal c.2[q] (listMean c.2) (listSampVar c.2) = true
    · simp only [hout, if_true, Option.some_inj] at hsome
      have : q = p := by
        have := hnd.getElem_inj_iff.mp hsome
        omega
      subst this
      rw [isOutlierAt, List.getD_eq_getElem c.2 0 hqv]
      simp [hqv, hout]
    · simp [hout] at hsome
  · intro hout
    rw [isOutlierAt, Bool.and_eq_true, decide_eq_true_iff] at hout
    have hpv : p < c.2.length := hout.1
    refine ⟨(X.index[p], c.2[p]), ?_, ?_⟩
    · have hpz : p < (X.index.zip c.2).length := by
        rw [List.length_zip]
        omega
      have hzm : (X.index.zip c.2).get ⟨p, hpz⟩ ∈ X.index.zip c.2 := List.get_mem _ _ hpz
      rw [List.get_eq_getElem, List.getElem_zip] at hzm
      exact hzm
    · rw [List.getD_eq_getElem c.2 0 hpv] at hout
      simp [hout.2]

/-- Claim C7 (amended with a duplicate-free row index): `removeOutliers`
drops a row exactly when it is an outlier in at least one column, where a
row is an outlier for a column when its value lies strictly outside
`mean ± 4·std` of that column computed over the pre-drop rows; every
retained row is therefore within four pre-drop standard deviations of every
column's pre-drop mean. -/
theorem removeOutliers_drops_exactly (X : DataFrame) (y : Series)
    (hnd : X.index.Nodup) (hlen : ∀ c ∈ X.cols, c.2.length = X.index.length)
    (p : Nat) (hp : p < X.index.length) :
    (X.index[p] ∉ (removeOutliers X y).1.index ↔
      ∃ c ∈ X.cols, isOutlierAt c p = true) ∧
    (X.index[p] ∈ (removeOutliers X y).1.index →
      ∀ c ∈ X.cols, isOutlierAt c p = false) := by
  have hres : (removeOutliers X y).1.index
      = X.index.filter (fun l => decide (l ∉ dropIndices X)) := rfl
  have hmem : X.index[p] ∈ (removeOutliers X y).1.index ↔
      X.index[p] ∉ dropIndices X := by
    rw [hres, List.mem_filter]
    simp [List.getElem_mem]
  have hdrop : X.index[p] ∈ dropIndices X ↔ ∃ c ∈ X.cols, isOutlierAt c p = true := by
    rw [dropIndices, List.mem_dedup, mem_buildIndices]
    constructor
    · rintro ⟨c, hc, hl⟩
      exact ⟨c, hc, (getElem_mem_outlierLabels_iff X c hnd (hlen c hc) p hp).mp hl⟩
    · rintro ⟨c, hc, hl⟩
      exact ⟨c, hc, (getElem_mem_outlierLabels_iff X c hnd (hlen c hc) p hp).mpr hl⟩
  constructor
  · rw [hmem, not_not, hdrop]
  · intro hin c hc
    have : ¬ ∃ c ∈ X.cols, isOutlierAt c p = true := by
      rw [← hdrop]
      exact hmem.mp hin
    push_neg at this
    simpa using this c hc

/-- Witness for C7's amended theorem at the concrete frame `Xw` (distinct
labels, one column of length two), position 0. -/
theorem removeOutliers_drops_exactly_witness :
    (Xw.index.Nodup ∧ (∀ c ∈ Xw.cols, c.2.length = Xw.index.length) ∧ 0 < Xw.index.length) ∧
      ((Xw.index[0] ∉ (removeOutliers Xw yw).1.index ↔
        ∃ c ∈ Xw.cols, isOutlierAt c 0 = true) ∧
       (Xw.index[0] ∈ (removeOutliers Xw yw).1.index →
        ∀ c ∈ Xw.cols, isOutlierAt c 0 = false)) :=
  ⟨⟨by decide, by decide, by decide⟩,
    removeOutliers_drops_exactly Xw yw (by decide) (by decide) 0 (by decide)⟩

set_option maxRecDepth 40000 in
/-- Counterexample to C7 exactly as stated: in `Xce` exactly one of the
eighteen row positions is an outlier in some column, yet two rows are
dropped (18 → 16), because the ordinary row at position 1 shares its index
label `7` with the outlier row and `drop` removes rows by label.  So
`removeOutliers` does not drop *exactly* the outlier rows on frames with
duplicate index labels. -/
theorem removeOutliers_collateral_drop :
    (List.range 18).countP (fun p => Xce.cols.any (fun c => isOutlierAt c p)) = 1 ∧
      Xce.index.length = 18 ∧ (removeOutliers Xce yce).1.index.length = 16 :=
  ⟨by decide, by decide, by decide⟩

/-! ### The frame condition of `removeOutliers`. -/

/-- Appending cannot change a lookup that already succeeds. -/
theorem store_lookup_append (σ τ : Store) (k : Nat) (h : (σ.lookup k).isSome = true) :
    (σ ++ τ).lookup k = σ.lookup k := by
  induction σ with
  | nil => simp [List.lookup] at h
  | cons p rest ih =>
    obtain ⟨a, b⟩ := p
    by_cases hk : (k == a) = true
    · simp [List.lookup, hk]
    · simp only [List.cons_append, List.lookup, hk] at h ⊢
      exact ih h

/-- Claim C9: `removeOutliersProg` never mutates existing objects — any
identifier whose lookup succeeded before the call (in particular the
caller's `X_train` and `y_train`) is bound to the same object afterwards;
the function only allocates copies and the results of `drop`. -/
theorem removeOutliersProg_frame (σ : Store) (xid yid k : Nat)
    (hk : (σ.lookup k).isSome = true) :
    ((removeOutliersProg σ xid yid).1).lookup k = σ.lookup k := by
  rw [removeOutliersProg]
  split
  · simp only [allocObj]
    rw [List.append_assoc, List.append_assoc, List.append_assoc]
    exact store_lookup_append σ _ k hk
  · rfl

/-- Witness for C9 at the concrete store holding `Xw` and `yw`. -/
theorem removeOutliersProg_frame_witness :
    (storeEx.lookup 1).isSome = true ∧
      ((removeOutliersProg storeEx 1 2).1).lookup 1 = storeEx.lookup 1 :=
  ⟨by decide, removeOutliersProg_frame storeEx 1 2 1 (by decide)⟩

/-! ### No leakage from the test fold into the scaler. -/

/-- Positional selection only reads the selected rows: frames with the same
column names that agree on every selected row position select identically. -/
theorem ilocDF_congr (X₁ X₂ : DataFrame) (ti : List Nat)
    (hcols : X₁.cols.map Prod.fst = X₂.cols.map Prod.fst)
    (hrows : ∀ i ∈ ti, rowAt X₁ i = rowAt X₂ i) :
    ilocDF X₁ ti = ilocDF X₂ ti := by
  have hlen : X₁.cols.length = X₂.cols.length := by
    simpa using congrArg List.length hcols
  rw [ilocDF, ilocDF]
  refine congrArg₂ DataFrame.mk ?_ ?_
  · exact List.map_congr_left fun i hi => congrArg Prod.fst (hrows i hi)
  · apply List.ext_getElem?
    intro j
    rw [List.getElem?_map, List.getElem?_map]
    by_cases hj : j < X₁.cols.length
    · have hj2 : j < X₂.cols.length := by omega
      rw [List.getElem?_eq_getElem hj, List.getElem?_eq_getElem hj2]
      have hname : X₁.cols[j].1 = X₂.cols[j].1 := by
        have h1 := congrArg (fun l => l[j]?) hcols
        simpa [List.getElem?_map, List.getElem?_eq_getElem, hj, hj2] using h1
      have hvals : ∀ i ∈ ti, X₁.cols[j].2.getD i 0 = X₂.cols[j].2.getD i 0 := by
        intro i hi
        have h2 := congrArg (fun l => l[j]?) (congrArg Prod.snd (hrows i hi))
        simpa [rowAt, List.getElem?_map, List.getElem?_eq_getElem, hj, hj2] using h2
      simp only [Option.map_some', Option.some_inj, Prod.mk.injEq]
      exact ⟨hname, List.map_congr_left fun i hi => by rw [hvals i hi]⟩
    · rw [List.getElem?_eq_none (by omega), List.getElem?_eq_none (by omega)]

/-- Claim C8: within any fold of `customCV`, the fitted scaler parameters
and the scaled training features depend only on the training-fold rows —
two feature tables with the same column names agreeing on every
training-fold row position (i.e. differing only in test-fold rows) produce
identical fitted scaler statistics and identical scaled training
features. -/
theorem foldEval_scaler_no_leakage {SP PP M : Type} (P : CVParts SP PP M)
    (outlier_removal : Bool) (splits : List (List Nat × List Nat))
    (X₁ X₂ : DataFrame) (y : Series) (ti te : List Nat)
    (hmem : (ti, te) ∈ splits)
    (hcols : X₁.cols.map Prod.fst = X₂.cols.map Prod.fst)
    (hrows : ∀ i ∈ ti, rowAt X₁ i = rowAt X₂ i) :
    (foldEval P outlier_removal X₁ y ti te).scalerParams
        = (foldEval P outlier_removal X₂ y ti te).scalerParams ∧
      (foldEval P outlier_removal X₁ y ti te).XtrainScaled
        = (foldEval P outlier_removal X₂ y ti te).XtrainScaled := by
  have hiloc := ilocDF_congr X₁ X₂ ti hcols hrows
  constructor
  · show P.sFit (ilocDF X₁ ti) = P.sFit (ilocDF X₂ ti)
    rw [hiloc]
  · show P.sTransform (P.sFit (ilocDF X₁ ti)) (ilocDF X₁ ti)
        = P.sTransform (P.sFit (ilocDF X₂ ti)) (ilocDF X₂ ti)
    rw [hiloc]

/-- Witness for C8: `Xw` and `X2w` differ only in the test row (position
1); the fold with training positions `[0]` fits identical scaler
statistics on both. -/
theorem foldEval_scaler_no_leakage_witness :
    (([0], [1]) ∈ [(([0] : List Nat), ([1] : List Nat))] ∧
      Xw.cols.map Prod.fst = X2w.cols.map Prod.fst ∧
      (∀ i ∈ ([0] : List Nat), rowAt Xw i = rowAt X2w i)) ∧
      ((foldEval cvPartsEx false Xw yw [0] [1]).scalerParams
          = (foldEval cvPartsEx false X2w yw [0] [1]).scalerParams ∧
        (foldEval cvPartsEx false Xw yw [0] [1]).XtrainScaled
          = (foldEval cvPartsEx false X2w yw [0] [1]).XtrainScaled) :=
  ⟨⟨by decide, by decide, by decide⟩,
    foldEval_scaler_no_leakage cvPartsEx false [([0], [1])] Xw X2w yw [0] [1]
      (by decide) (by decide) (by decide)⟩

/-! ### The grid enumerator. -/


theorem flatMap_singleton_eq_map {α β : Type} (f : α → β) (l : List α) :
    (l.flatMap fun x => [f x]) = l.map f := by
  induction l with
  | nil => rfl
  | cons a l ih => simp [List.flatMap_cons, ih]

theorem gridCombos_eq_mkCombos (vals : String → List String) (keys : List String)
    (h1 : 1 ≤ keys.length) (h5 : keys.length ≤ 5) :
    gridCombos vals keys = mkCombos vals keys := by
  match keys with
  | [k1] => simp [gridCombos, mkCombos, flatMap_singleton_eq_map]
  | [k1, k2] => simp [gridCombos, mkCombos, List.map_flatMap, List.map_map, Function.comp, flatMap_singleton_eq_map] <;> rfl
  | [k1, k2, k3] => simp [gridCombos, mkCombos, List.map_flatMap, List.map_map, Function.comp, flatMap_singleton_eq_map] <;> rfl
  | [k1, k2, k3, k4] =>
    simp [gridCombos, mkCombos, List.map_flatMap, List.map_map, Function.comp, flatMap_singleton_eq_map] <;> rfl
  | [k1, k2, k3, k4, k5] =>
    simp [gridCombos, mkCombos, List.map_flatMap, List.map_map, Function.comp, flatMap_singleton_eq_map] <;> rfl
  | [] => simp at h1
  | k1 :: k2 :: k3 :: k4 :: k5 :: k6 :: rest => simp at h5

theorem length_mkCombos (vals : String → List String) (keys : List String) :
    (mkCombos vals keys).length = (keys.map (fun k => (vals k).length)).prod := by
  induction keys with
  | nil => simp [mkCombos]
  | cons k ks ih =>
    rw [mkCombos, List.length_flatMap]
    have hconst : (List.map (List.length ∘ fun v =>
          List.map (fun rest => (k, v) :: rest) (mkCombos vals ks)) (vals k))
        = List.map (fun _ => (mkCombos vals ks).length) (vals k) := by
      apply List.map_congr_left
      intro v hv
      simp
    rw [hconst, List.map_const', List.sum_replicate, smul_eq_mul, ih,
      List.map_cons, List.prod_cons]

theorem nodup_mkCombos (vals : String → List String) (keys : List String)
    (hv : ∀ k ∈ keys, (vals k).Nodup) : (mkCombos vals keys).Nodup := by
  induction keys with
  | nil => simp [mkCombos]
  | cons k ks ih =>
    rw [mkCombos, List.nodup_flatMap]
    constructor
    · intro v hv2
      refine (ih fun k2 hk2 => hv k2 (List.mem_cons_of_mem _ hk2)).map ?_
      intro r1 r2 h
      exact (List.cons_eq_cons.mp h).2
    · have hk := hv k (List.mem_cons_self _ _)
      refine hk.imp ?_
      intro v1 v2 hne
      rw [Function.onFun, List.disjoint_left]
      rintro c hc1 hc2
      rcases List.mem_map.mp hc1 with ⟨r1, -, rfl⟩
      rcases List.mem_map.mp hc2 with ⟨r2, -, hr⟩
      exact hne (congrArg Prod.snd (List.cons_eq_cons.mp hr).1).symm


theorem dict_any_iff (d : List (Combo × Score)) (c : Combo) :
    (d.any fun p => p.1 == c) = true ↔ c ∈ d.map Prod.fst := by
  rw [List.any_eq_true]
  constructor
  · rintro ⟨p, hp, hb⟩
    exact List.mem_map.mpr ⟨p, hp, eq_of_beq hb⟩
  · intro h
    rcases List.mem_map.mp h with ⟨p, hp, rfl⟩
    exact ⟨p, hp, beq_self_eq_true _⟩

theorem dictUpsert_of_not_mem (d : List (Combo × Score)) (c : Combo) (v : Score)
    (h : c ∉ d.map Prod.fst) : dictUpsert d c v = d ++ [(c, v)] := by
  rw [dictUpsert, if_neg]
  intro hc
  exact h ((dict_any_iff d c).mp hc)

theorem dictUpsert_keys (d : List (Combo × Score)) (c : Combo) (v : Score) :
    (dictUpsert d c v).map Prod.fst
      = if c ∈ d.map Prod.fst then d.map Prod.fst else d.map Prod.fst ++ [c] := by
  by_cases h : c ∈ d.map Prod.fst
  · rw [if_pos h, dictUpsert, if_pos ((dict_any_iff d c).mpr h), List.map_map]
    apply List.map_congr_left
    intro p hp
    by_cases hc : p.1 = c
    · simp [hc]
    · simp [hc]
  · rw [if_neg h, dictUpsert_of_not_mem d c v h]
    simp

theorem dictUpsert_length_ge (d : List (Combo × Score)) (c : Combo) (v : Score) :
    d.length ≤ (dictUpsert d c v).length := by
  rw [dictUpsert]
  by_cases h : (d.any fun p => p.1 == c) = true
  · rw [if_pos h, List.length_map]
  · rw [if_neg h, List.length_append]
    omega

theorem foldl_dictUpsert_keys_nodup (cv : Combo → Score) :
    ∀ (combos : List Combo) (d : List (Combo × Score)), (d.map Prod.fst).Nodup →
      ((combos.foldl (fun d c => dictUpsert d c (cv c)) d).map Prod.fst).Nodup := by
  intro combos
  induction combos with
  | nil => intro d h; exact h
  | cons c rest ih =>
    intro d h
    rw [List.foldl_cons]
    apply ih
    rw [dictUpsert_keys]
    by_cases hc : c ∈ d.map Prod.fst
    · rwa [if_pos hc]
    · rw [if_neg hc]
      rw [List.nodup_append]
      exact ⟨h, List.nodup_singleton c, by simpa using hc⟩

theorem foldl_dictUpsert_length (cv : Combo → Score) :
    ∀ (combos : List Combo) (d : List (Combo × Score)), combos.Nodup →
      (∀ c ∈ combos, c ∉ d.map Prod.fst) →
      (combos.foldl (fun d c => dictUpsert d c (cv c)) d).length
        = d.length + combos.length := by
  intro combos
  induction combos with
  | nil => intro d _ _; simp
  | cons c rest ih =>
    intro d hnd hfresh
    rw [List.foldl_cons, dictUpsert_of_not_mem d c (cv c) (hfresh c (List.mem_cons_self _ _))]
    have hk : (d ++ [(c, cv c)]).map Prod.fst = d.map Prod.fst ++ [c] := by simp
    have hrest : ∀ c9 ∈ rest, c9 ∉ (d ++ [(c, cv c)]).map Prod.fst := by
      intro c9 hc9
      rw [hk, List.mem_append, List.mem_singleton]
      rintro (hin | rfl)
      · exact hfresh c9 (List.mem_cons_of_mem _ hc9) hin
      · exact (List.nodup_cons.mp hnd).1 hc9
    rw [ih (d ++ [(c, cv c)]) (List.nodup_cons.mp hnd).2 hrest]
    simp
    omega

theorem foldl_dictUpsert_length_ge (cv : Combo → Score) :
    ∀ (combos : List Combo) (d : List (Combo × Score)),
      d.length ≤ (combos.foldl (fun d c => dictUpsert d c (cv c)) d).length := by
  intro combos
  induction combos with
  | nil => intro d; exact Nat.le_refl _
  | cons c rest ih =>
    intro d
    rw [List.foldl_cons]
    exact Nat.le_trans (dictUpsert_length_ge d c (cv c)) (ih _)

theorem dictFind_of_mem_keys (d : List (Combo × Score)) (k : Combo)
    (h : k ∈ d.map Prod.fst) : (k, dictFind d k) ∈ d := by
  induction d with
  | nil => simp at h
  | cons p rest ih =>
    by_cases hc : p.1 = k
    · have hb : (p.1 == k) = true := beq_iff_eq.mpr hc
      rw [dictFind, List.find?_cons, hb]
      subst hc
      left
    · have hb : (p.1 == k) = false := beq_eq_false_iff_ne.mpr hc
      have hk : k ∈ rest.map Prod.fst := by
        rcases List.mem_map.mp h with ⟨q, hq, rfl⟩
        rcases List.mem_cons.mp hq with rfl | hq2
        · exact absurd rfl hc
        · exact List.mem_map.mpr ⟨q, hq2, rfl⟩
      have := ih hk
      rw [dictFind, List.find?_cons, hb] at *
      exact List.mem_cons_of_mem _ this

theorem dictFind_eq_of_mem (d : List (Combo × Score)) (k : Combo) (s : Score)
    (hnd : (d.map Prod.fst).Nodup) (h : (k, s) ∈ d) : dictFind d k = s := by
  induction d with
  | nil => simp at h
  | cons p rest ih =>
    rcases List.mem_cons.mp h with rfl | h2
    · rw [dictFind, List.find?_cons, beq_self_eq_true]
    · have hne : p.1 ≠ k := by
        intro hc
        have hk : k ∈ rest.map Prod.fst := List.mem_map.mpr ⟨(k, s), h2, rfl⟩
        rw [List.map_cons, List.nodup_cons] at hnd
        exact hnd.1 (hc ▸ hk)
      have hb : (p.1 == k) = false := beq_eq_false_iff_ne.mpr hne
      rw [dictFind, List.find?_cons, hb]
      exact ih (List.nodup_cons.mp (by simpa using hnd)).2 h2

theorem foldl_max_mem (xs : List ℚ) :
    ∀ a : ℚ, xs.foldl (fun a b => if a < b then b else a) a ∈ a :: xs := by
  induction xs with
  | nil => intro a; simp
  | cons b xs ih =>
    intro a
    rw [List.foldl_cons]
    have := ih (if a < b then b else a)
    rcases List.mem_cons.mp this with h | h
    · rw [h]
      by_cases hab : a < b
      · simp [hab]
      · simp [hab]
    · exact List.mem_cons_of_mem _ (List.mem_cons_of_mem _ h)

theorem listMaxQ_mem (l : List ℚ) (m : ℚ) (h : listMaxQ l = some m) : m ∈ l := by
  cases l with
  | nil => simp [listMaxQ] at h
  | cons x xs =>
    rw [listMaxQ, Option.some_inj] at h
    exact h ▸ foldl_max_mem xs x

theorem gridVals_mem (pg : List (String × List String)) (k : String)
    (h : k ∈ pg.map Prod.fst) : ∃ e ∈ pg, gridVals pg k = e.2 := by
  induction pg with
  | nil => simp at h
  | cons e rest ih =>
    by_cases hc : e.1 = k
    · refine ⟨e, List.mem_cons_self _ _, ?_⟩
      rw [gridVals, List.find?_cons, beq_iff_eq.mpr hc]
      rfl
    · have hk : k ∈ rest.map Prod.fst := by
        rcases List.mem_map.mp h with ⟨q, hq, rfl⟩
        rcases List.mem_cons.mp hq with rfl | hq2
        · exact absurd rfl hc
        · exact List.mem_map.mpr ⟨q, hq2, rfl⟩
      rcases ih hk with ⟨e2, he2, hv⟩
      refine ⟨e2, List.mem_cons_of_mem _ he2, ?_⟩
      rw [gridVals, List.find?_cons, beq_eq_false_iff_ne.mpr hc]
      exact hv

theorem gridVals_eq_of_nodup (pg : List (String × List String))
    (e : String × List String) (hnd : (pg.map Prod.fst).Nodup) (he : e ∈ pg) :
    gridVals pg e.1 = e.2 := by
  induction pg with
  | nil => simp at he
  | cons p rest ih =>
    rcases List.mem_cons.mp he with rfl | h2
    · rw [gridVals, List.find?_cons, beq_self_eq_true]
      rfl
    · have hne : p.1 ≠ e.1 := by
        intro hc
        have hk : e.1 ∈ rest.map Prod.fst := List.mem_map.mpr ⟨e, h2, rfl⟩
        rw [List.map_cons, List.nodup_cons] at hnd
        exact hnd.1 (hc ▸ hk)
      rw [gridVals, List.find?_cons, beq_eq_false_iff_ne.mpr hne]
      exact ih (List.nodup_cons.mp (by simpa using hnd)).2 h2

/-- Claim C5: for a grid of one to five names with unique names, each with
duplicate-free candidate value strings, the enumeration evaluates the model
exactly once per element of the Cartesian product: the enumerated
combination list has the product of the candidate counts as its length and
no duplicates, and the score dict has exactly one entry per combination. -/
theorem gridSearch_eval_count (pg : List (String × List String)) (cv : Combo → Score)
    (h1 : 1 ≤ pg.length) (h5 : pg.length ≤ 5)
    (hnames : (pg.map Prod.fst).Nodup)
    (hvd : ∀ e ∈ pg, e.2.Nodup) :
    (gridCombos (gridVals pg) (sortedKeys pg)).length = (pg.map (fun e => e.2.length)).prod ∧
      (gridCombos (gridVals pg) (sortedKeys pg)).Nodup ∧
      (gridScores pg cv).length = (pg.map (fun e => e.2.length)).prod := by
  have hperm : (sortedKeys pg).Perm (pg.map Prod.fst) :=
    List.perm_insertionSort _ _
  have hklen : (sortedKeys pg).length = pg.length := by
    rw [hperm.length_eq, List.length_map]
  have heq := gridCombos_eq_mkCombos (gridVals pg) (sortedKeys pg)
    (by omega) (by omega)
  have hlen : (mkCombos (gridVals pg) (sortedKeys pg)).length
      = (pg.map (fun e => e.2.length)).prod := by
    rw [length_mkCombos]
    have hpp : ((sortedKeys pg).map fun k => (gridVals pg k).length).prod
        = ((pg.map Prod.fst).map fun k => (gridVals pg k).length).prod :=
      (hperm.map _).prod_eq
    rw [hpp, List.map_map]
    exact congrArg List.prod (List.map_congr_left fun e he => by
      simp only [Function.comp_apply]
      rw [gridVals_eq_of_nodup pg e hnames he])
  have hnod : (mkCombos (gridVals pg) (sortedKeys pg)).Nodup := by
    apply nodup_mkCombos
    intro k hk
    rcases gridVals_mem pg k (hperm.subset hk) with ⟨e, he, hv⟩
    rw [hv]
    exact hvd e he
  refine ⟨heq ▸ hlen, heq ▸ hnod, ?_⟩
  rw [gridScores, heq, foldl_dictUpsert_length cv _ [] hnod (by simp), hlen]
  simp

/-- Claim C1 (evidence of the code bug): for every grid of one to five
names, each with at least one candidate value, scoring `"recall"` never
returns the documented best-combination tuple — the `print(scaler_str, …)`
preceding the `return` reads the undefined name `scaler_str`, so the call
always raises `NameError`. -/
theorem gridSearch_recall_raises (pg : List (String × List String)) (cv : Combo → Score)
    (h1 : 1 ≤ pg.length) (h5 : pg.length ≤ 5) (hne : ∀ e ∈ pg, e.2 ≠ []) :
    customGridSearchCV pg cv "recall" = .error (.nameError "scaler_str") := by
  have hperm : (sortedKeys pg).Perm (pg.map Prod.fst) :=
    List.perm_insertionSort _ _
  have hklen : (sortedKeys pg).length = pg.length := by
    rw [hperm.length_eq, List.length_map]
  have hpos : 0 < (gridCombos (gridVals pg) (sortedKeys pg)).length := by
    rw [gridCombos_eq_mkCombos _ _ (by omega) (by omega), length_mkCombos]
    apply List.prod_pos
    intro n hn
    rcases List.mem_map.mp hn with ⟨k, hk, rfl⟩
    rcases gridVals_mem pg k (hperm.subset hk) with ⟨e, he, hv⟩
    rw [hv]
    exact List.length_pos.mpr (hne e he)
  have hslen : 0 < (gridScores pg cv).length := by
    rw [gridScores]
    cases hc : gridCombos (gridVals pg) (sortedKeys pg) with
    | nil => rw [hc] at hpos; simp at hpos
    | cons c rest =>
      rw [List.foldl_cons, dictUpsert_of_not_mem [] c (cv c) (by simp)]
      calc 0 < ([] ++ [(c, cv c)]).length := by simp
        _ ≤ _ := foldl_dictUpsert_length_ge cv rest _
  obtain ⟨m, hm⟩ : ∃ m, listMaxQ ((gridScores pg cv).map fun p => p.2.recallScore)
      = some m := by
    cases hq : (gridScores pg cv).map (fun p => p.2.recallScore) with
    | nil =>
      rw [List.map_eq_nil_iff] at hq
      rw [hq] at hslen
      simp at hslen
    | cons x xs => exact ⟨_, rfl⟩
  obtain ⟨p, hp⟩ : ∃ p, (gridScores pg cv).find? (fun p => p.2.recallScore == m)
      = some p := by
    have hmem := listMaxQ_mem _ m hm
    rcases List.mem_map.mp hmem with ⟨p, hp2, hpm⟩
    exact Option.isSome_iff_exists.mp
      (List.find?_isSome.mpr ⟨p, hp2, beq_iff_eq.mpr hpm⟩)
  have h0 : ¬ ((pg.map Prod.fst).length = 0) := by
    rw [List.length_map]
    omega
  simp only [customGridSearchCV, h0, if_false, if_true]
  try rw [hm, Option.elim_some, hp, Option.elim_some]
  try rw [if_neg (by decide), if_neg (by decide)]
  try rw [hm, Option.elim_some, hp, Option.elim_some]
  try rfl

/-- Claim C2 (evidence of the code bug): scoring `"precision"` never
returns the documented tuple — line 257 reads `max_score == max(...)`
(a comparison, not an assignment), so evaluating the unbound `max_score`
raises `NameError` on every call that reaches the branch. -/
theorem gridSearch_precision_raises (pg : List (String × List String)) (cv : Combo → Score)
    (h1 : 1 ≤ pg.length) :
    customGridSearchCV pg cv "precision" = .error (.nameError "max_score") := by
  have h0 : ¬ ((pg.map Prod.fst).length = 0) := by
    rw [List.length_map]
    omega
  simp only [customGridSearchCV, h0, if_false, if_true]
  try rw [if_neg (by decide), if_neg (by decide), if_neg (by decide), if_pos rfl]
  try rfl

/-- Claim C4: scoring `"custom"` prints exactly the combinations whose
mean recall exceeds `0.5` and whose mean precision exceeds `0.2`, and
returns the full score mapping over all combinations regardless of how
many passed the thresholds. -/
theorem gridSearch_custom_spec (pg : List (String × List String)) (cv : Combo → Score)
    (h1 : 1 ≤ pg.length) (h5 : pg.length ≤ 5) :
    ∃ printed, customGridSearchCV pg cv "custom"
        = .ok (printed, .mapping (gridScores pg cv)) ∧
      ∀ k s, (k, s) ∈ printed ↔
        ((k, s) ∈ gridScores pg cv ∧ 1 / 2 < s.recallScore ∧ 1 / 5 < s.precisionScore) := by
  have h0 : ¬ ((pg.map Prod.fst).length = 0) := by
    rw [List.length_map]
    omega
  have hnd : ((gridScores pg cv).map Prod.fst).Nodup :=
    foldl_dictUpsert_keys_nodup cv _ [] (by simp)
  refine ⟨(sortedScoreKeys (gridScores pg cv)).filterMap (fun k =>
    if mkRat 1 2 < (dictFind (gridScores pg cv) k).recallScore ∧
        mkRat 1 5 < (dictFind (gridScores pg cv) k).precisionScore
    then some (k, dictFind (gridScores pg cv) k) else none), ?_, ?_⟩
  · simp only [customGridSearchCV, h0, if_false, if_true]
    try rw [if_neg (by decide), if_pos rfl]
    try rfl
  · intro k s
    constructor
    · intro hmem
      rcases List.mem_filterMap.mp hmem with ⟨k9, hk9, hsome⟩
      by_cases hcond : mkRat 1 2 < (dictFind (gridScores pg cv) k9).recallScore ∧
          mkRat 1 5 < (dictFind (gridScores pg cv) k9).precisionScore
      · rw [if_pos hcond] at hsome
        have hpair := Option.some_inj.mp hsome
        have hk : k9 = k := congrArg Prod.fst hpair
        have hs : dictFind (gridScores pg cv) k9 = s := congrArg Prod.snd hpair
        subst hk
        rw [hs] at hcond
        rw [custom_thresholds.1] at hcond
        rw [custom_thresholds.2] at hcond
        refine ⟨?_, hcond.1, hcond.2⟩
        have hk9m : k9 ∈ (gridScores pg cv).map Prod.fst := by
          rw [sortedScoreKeys, List.mem_insertionSort] at hk9
          exact hk9
        have hfound := dictFind_of_mem_keys _ _ hk9m
        rwa [hs] at hfound
      · rw [if_neg hcond] at hsome
        exact absurd hsome (by simp)
    · rintro ⟨hmem, hr, hp⟩
      have hfind : dictFind (gridScores pg cv) k = s := dictFind_eq_of_mem _ _ _ hnd hmem
      have hkk : k ∈ sortedScoreKeys (gridScores pg cv) := by
        rw [sortedScoreKeys, List.mem_insertionSort]
        exact List.mem_map.mpr ⟨(k, s), hmem, rfl⟩
      apply List.mem_filterMap.mpr
      refine ⟨k, hkk, ?_⟩
      rw [hfind, if_pos ⟨by rwa [custom_thresholds.1], by rwa [custom_thresholds.2]⟩]


/-- Claim C3 (evidence of the code bug): on the two-combination grid
`pgEx` with scoring `"all"`, the returned mapping holds both combinations'
scores, but the printed output contains only the first combination in
sorted key order — the `return scores` of line 244 sits inside the print
loop and fires on its first iteration. -/
theorem gridSearch_all_early_return :
    customGridSearchCV pgEx cvEx "all"
      = .ok ([([("a", "1")], cvEx [("a", "1")])],
          .mapping [([("a", "1")], cvEx [("a", "1")]),
                    ([("a", "2")], cvEx [("a", "2")])]) := by
  rfl

/-- Witness for C1 at the concrete grid `pgEx`. -/
theorem gridSearch_recall_raises_witness :
    (1 ≤ pgEx.length ∧ pgEx.length ≤ 5 ∧ ∀ e ∈ pgEx, e.2 ≠ []) ∧
      customGridSearchCV pgEx cvEx "recall" = .error (.nameError "scaler_str") :=
  ⟨⟨by decide, by decide, by decide⟩,
    gridSearch_recall_raises pgEx cvEx (by decide) (by decide) (by decide)⟩

/-- Witness for C2 at the concrete grid `pgEx`. -/
theorem gridSearch_precision_raises_witness :
    1 ≤ pgEx.length ∧
      customGridSearchCV pgEx cvEx "precision" = .error (.nameError "max_score") :=
  ⟨by decide, gridSearch_precision_raises pgEx cvEx (by decide)⟩

/-- Witness for C4 at the concrete grid `pgEx`. -/
theorem gridSearch_custom_spec_witness :
    (1 ≤ pgEx.length ∧ pgEx.length ≤ 5) ∧
      ∃ printed, customGridSearchCV pgEx cvEx "custom"
          = .ok (printed, .mapping (gridScores pgEx cvEx)) ∧
        ∀ k s, (k, s) ∈ printed ↔
          ((k, s) ∈ gridScores pgEx cvEx ∧
            1 / 2 < s.recallScore ∧ 1 / 5 < s.precisionScore) :=
  ⟨⟨by decide, by decide⟩, gridSearch_custom_spec pgEx cvEx (by decide) (by decide)⟩

/-- Witness for C5 at the concrete two-parameter grid `pgEx2`
(3 × 2 = 6 combinations). -/
theorem gridSearch_eval_count_witness :
    (1 ≤ pgEx2.length ∧ pgEx2.length ≤ 5 ∧ (pgEx2.map Prod.fst).Nodup ∧
        ∀ e ∈ pgEx2, e.2.Nodup) ∧
      ((gridCombos (gridVals pgEx2) (sortedKeys pgEx2)).length
          = (pgEx2.map (fun e => e.2.length)).prod ∧
        (gridCombos (gridVals pgEx2) (sortedKeys pgEx2)).Nodup ∧
        (gridScores pgEx2 cvEx).length = (pgEx2.map (fun e => e.2.length)).prod) :=
  ⟨⟨by decide, by decide, by decide, by decide⟩,
    gridSearch_eval_count pgEx2 cvEx (by decide) (by decide) (by decide) (by decide)⟩

end CCFraud
